import Mathlib

/-!
# Pico Chess rules engine — verification development

Shallow embedding of the Pico Chess rules engine (`src/lib/game-logic.ts`)
and of the server-side move arbiter (`handleGameMove` in the WebSocket
message handler).  The game is played on a 6×6 board; captured pieces go to
the capturer's hand and may be dropped back (Shogi style).

Positions are pairs of integers, as in the TypeScript source (JS numbers
used as array indices); a drop records the off-board sentinel `(-1, -1)`.
The board is a list of rows, each a list of optional pieces, mirroring the
`(Piece | null)[][]` representation.  Board reads outside the 0–5 range
yield `none`, matching the JS behaviour of reading an out-of-range index of
an existing row (`undefined`, which the source only ever tests for
truthiness).  The JS exception raised when the *row* index itself is out of
range (indexing into `undefined`) is modelled separately by the `Except`
variants `isLegalMoveJS` / `dropPieceJS` below.
-/

namespace PicoChess

/-- Piece kinds, from `src/lib/types.ts` (`PieceType`). -/
inductive PieceType where
  | KING
  | QUEEN
  | ROOK
  | BISHOP
  | KNIGHT
  | PAWN
deriving DecidableEq, Repr

/-- Player colours, from `src/lib/types.ts` (`PlayerColor`). -/
inductive PlayerColor where
  | WHITE
  | BLACK
deriving DecidableEq, Repr

/-- A board position; `row`/`col` are JS numbers, embedded as integers so
that off-board values (such as the drop sentinel `-1`) are representable. -/
structure Position where
  row : Int
  col : Int
deriving DecidableEq, Repr

/-- A move record; the source's fields are `from`/`to` (`from` is a Lean
keyword, hence `fromPos`/`toPos`). -/
structure Move where
  fromPos : Position
  toPos : Position
deriving DecidableEq, Repr

/-- A piece: type plus colour. -/
structure Piece where
  type : PieceType
  color : PlayerColor
deriving DecidableEq, Repr

/-- A hand (`Record<PieceType, number>`): captured-piece counts per type. -/
structure Hand where
  KING : Nat
  QUEEN : Nat
  ROOK : Nat
  BISHOP : Nat
  KNIGHT : Nat
  PAWN : Nat
deriving DecidableEq, Repr

/-- Look up a hand count (`hand[pieceType]`). -/
def Hand.get (h : Hand) : PieceType → Nat
  | .KING => h.KING
  | .QUEEN => h.QUEEN
  | .ROOK => h.ROOK
  | .BISHOP => h.BISHOP
  | .KNIGHT => h.KNIGHT
  | .PAWN => h.PAWN

/-- Replace a hand count (`hand[pieceType] = n`). -/
def Hand.set (h : Hand) (t : PieceType) (n : Nat) : Hand :=
  match t with
  | .KING => { h with KING := n }
  | .QUEEN => { h with QUEEN := n }
  | .ROOK => { h with ROOK := n }
  | .BISHOP => { h with BISHOP := n }
  | .KNIGHT => { h with KNIGHT := n }
  | .PAWN => { h with PAWN := n }

/-- `hand[type] = (hand[type] || 0) + 1`, the capture bookkeeping of `makeMove`. -/
def Hand.incr (h : Hand) (t : PieceType) : Hand :=
  h.set t (h.get t + 1)

/-- `newHand[pieceType] = newHand[pieceType]! - 1`, the drop bookkeeping of
`dropPiece` (only reached when the count is positive). -/
def Hand.decr (h : Hand) (t : PieceType) : Hand :=
  h.set t (h.get t - 1)

/-- The board: 6 rows of 6 optional pieces (`(Piece | null)[][]`). -/
abbrev Board := List (List (Option Piece))

/-- Complete game state, from `src/lib/types.ts` (`GameState`). -/
structure GameState where
  board : Board
  currentPlayer : PlayerColor
  player1Hand : Hand
  player2Hand : Hand
  lastMove : Option Move
  checkedKingPosition : Option Position
deriving DecidableEq, Repr

/-- `isValidPosition` from `game-logic.ts`: both coordinates in 0–5. -/
def isValidPosition (row col : Int) : Bool :=
  decide (0 ≤ row) && decide (row < 6) && decide (0 ≤ col) && decide (col < 6)

/-- Read `board[p.row][p.col]`.  Out-of-range reads give `none`
(JS `undefined`, which the source only tests for truthiness). -/
def boardGet (b : Board) (p : Position) : Option Piece :=
  if isValidPosition p.row p.col = true then
    (b.getD p.row.toNat []).getD p.col.toNat none
  else none

/-- Write `board[p.row][p.col] = v`; a no-op when `p` is out of range
(the source only ever writes in-range cells of the 6×6 data model). -/
def boardSet (b : Board) (p : Position) (v : Option Piece) : Board :=
  if isValidPosition p.row p.col = true then
    b.set p.row.toNat ((b.getD p.row.toNat []).set p.col.toNat v)
  else b

/-- The opposite colour (`currentPlayer === "WHITE" ? "BLACK" : "WHITE"`). -/
def opponent : PlayerColor → PlayerColor
  | .WHITE => .BLACK
  | .BLACK => .WHITE

/-- The hand of a given colour (`color === "WHITE" ? player1Hand : player2Hand`). -/
def handOf (g : GameState) (c : PlayerColor) : Hand :=
  match c with
  | .WHITE => g.player1Hand
  | .BLACK => g.player2Hand

/-- All 36 board cells in the row-major order of the source's nested
`for (row …) for (col …)` scans. -/
def allCells : List Position :=
  (List.range 6).flatMap fun (r : Nat) =>
    (List.range 6).map fun (c : Nat) => ⟨(r : Int), (c : Int)⟩

/-- The 8 king offsets, in the source's loop order (`rowOffset` outer,
`colOffset` inner, skipping `(0,0)`). -/
def kingOffsets : List (Int × Int) :=
  [(-1, -1), (-1, 0), (-1, 1), (0, -1), (0, 1), (1, -1), (1, 0), (1, 1)]

/-- The 8 knight offsets, in the source's listed order. -/
def knightOffsets : List (Int × Int) :=
  [(-2, -1), (-2, 1), (-1, -2), (-1, 2), (1, -2), (1, 2), (2, -1), (2, 1)]

/-- One-step moves (KING and KNIGHT): for each offset, keep the target if it
is on the board and empty or holds an enemy piece. -/
def stepMoves (b : Board) (myColor : PlayerColor) (f : Position)
    (offsets : List (Int × Int)) : List Position :=
  offsets.filterMap fun o =>
    let nr := f.row + o.1
    let nc := f.col + o.2
    if isValidPosition nr nc = true then
      match boardGet b ⟨nr, nc⟩ with
      | none => some ⟨nr, nc⟩
      | some t => if t.color ≠ myColor then some ⟨nr, nc⟩ else none
    else none

/-- Sliding loop of ROOK/BISHOP: the source's
`for (offset = 1; offset < 6; offset++)` walk in direction `(dr, dc)` from
`(r, c)`, stopping at the board edge or the first occupied square (which is
kept when it holds an enemy piece).  `fuel` is the remaining iteration
count, 5 at the top call. -/
def slideB (b : Board) (myColor : PlayerColor) (r c dr dc : Int) : Nat → List Position
  | 0 => []
  | fuel + 1 =>
    let nr := r + dr
    let nc := c + dc
    if isValidPosition nr nc = true then
      match boardGet b ⟨nr, nc⟩ with
      | none => ⟨nr, nc⟩ :: slideB b myColor nr nc dr dc fuel
      | some t => if t.color ≠ myColor then [⟨nr, nc⟩] else []
    else []

/-- Pawn forward cell: kept only when on the board and empty (pawns never
capture straight ahead). -/
def pawnForward (b : Board) (f : Position) (dir : Int) : List Position :=
  if isValidPosition (f.row + dir) f.col = true ∧ boardGet b ⟨f.row + dir, f.col⟩ = none
  then [⟨f.row + dir, f.col⟩] else []

/-- Pawn diagonal capture cell: kept only when on the board and holding an
enemy piece. -/
def pawnCap (b : Board) (myColor : PlayerColor) (r c : Int) : List Position :=
  if isValidPosition r c = true then
    match boardGet b ⟨r, c⟩ with
    | some t => if t.color ≠ myColor then [⟨r, c⟩] else []
    | none => []
  else []

/-- `getPotentialMoves` from `game-logic.ts`, as a function of the board
(the source takes the full state but reads only its `board`).  Follows the
basic movement pattern of the piece at `f`, ignoring check.  The source's
`switch` has no QUEEN case, so a QUEEN generates no moves. -/
def getPotentialMovesB (b : Board) (f : Position) : List Position :=
  match boardGet b f with
  | none => []
  | some piece =>
    match piece.type with
    | .KING => stepMoves b piece.color f kingOffsets
    | .ROOK =>
        slideB b piece.color f.row f.col 0 (-1) 5 ++
        slideB b piece.color f.row f.col 0 1 5 ++
        slideB b piece.color f.row f.col (-1) 0 5 ++
        slideB b piece.color f.row f.col 1 0 5
    | .BISHOP =>
        slideB b piece.color f.row f.col (-1) (-1) 5 ++
        slideB b piece.color f.row f.col (-1) 1 5 ++
        slideB b piece.color f.row f.col 1 (-1) 5 ++
        slideB b piece.color f.row f.col 1 1 5
    | .KNIGHT => stepMoves b piece.color f knightOffsets
    | .QUEEN => []
    | .PAWN =>
        let dir : Int := if piece.color = .WHITE then 1 else -1
        pawnForward b f dir ++
        pawnCap b piece.color (f.row + dir) (f.col - 1) ++
        pawnCap b piece.color (f.row + dir) (f.col + 1)

/-- Row-major scan for the first king of a colour (the loop-with-break in
`wouldKingBeInCheck` and `isKingInCheck`, which both inline this search). -/
def findKing (b : Board) (color : PlayerColor) : Option Position :=
  allCells.find? fun p =>
    match boardGet b p with
    | some pc => decide (pc.type = PieceType.KING) && decide (pc.color = color)
    | none => false

/-- The attack scan shared by `wouldKingBeInCheck` and `isKingInCheck`: does
any piece of `attacker` have a potential move onto `target`?  (The source
compares `attackMove.row`/`attackMove.col` with the king's coordinates.) -/
def anyAttacker (b : Board) (attacker : PlayerColor) (target : Position) : Bool :=
  allCells.any fun p =>
    match boardGet b p with
    | some pc =>
        decide (pc.color = attacker) &&
        (getPotentialMovesB b p).any fun m =>
          decide (m.row = target.row) && decide (m.col = target.col)
    | none => false

/-- `wouldKingBeInCheck` from `game-logic.ts`: simulate the move `f → to`
on a scratch copy and test whether any opponent piece then attacks the
mover's king (the destination itself when the king moved, otherwise the
king found by the row-major scan; `none` gives the defensive `false`). -/
def wouldKingBeInCheck (g : GameState) (f toP : Position) : Bool :=
  let movingPiece := boardGet g.board f
  let kingPosition : Option Position :=
    match movingPiece with
    | some p =>
        if p.type = PieceType.KING then some toP
        else findKing g.board g.currentPlayer
    | none => findKing g.board g.currentPlayer
  match kingPosition with
  | none => false
  | some kp =>
      let newBoard := boardSet (boardSet g.board toP movingPiece) f none
      anyAttacker newBoard (opponent g.currentPlayer) kp

/-- `isLegalMove` from `game-logic.ts`: empty if no piece at `f` or the
piece is not the current player's; otherwise the potential moves with the
self-check candidates filtered out; when `to` is given and
`getAllLegalMoves` is false, filtered down to that one destination. -/
def isLegalMove (g : GameState) (f : Position) (toP : Option Position)
    (getAllLegalMoves : Bool) : List Position :=
  match boardGet g.board f with
  | none => []
  | some piece =>
    if piece.color ≠ g.currentPlayer then []
    else
      let legalMoves :=
        (getPotentialMovesB g.board f).filter fun m => !wouldKingBeInCheck g f m
      match toP with
      | some t =>
          if getAllLegalMoves then legalMoves
          else legalMoves.filter fun m => decide (m.row = t.row) && decide (m.col = t.col)
      | none => legalMoves

/-- `makeMove` from `game-logic.ts`: unconditional execution — relocate the
piece, credit a captured piece to the mover's hand, record `lastMove`, and
flip the turn unless a pawn just reached its far rank (promotion pending).
`checkedKingPosition` is carried over from the deep copy untouched. -/
def makeMove (g : GameState) (f toP : Position) : GameState :=
  let movingPiece := boardGet g.board f
  let capturedPiece := boardGet g.board toP
  let newBoard := boardSet (boardSet g.board toP movingPiece) f none
  let p1 :=
    match capturedPiece with
    | some cp =>
        if g.currentPlayer = PlayerColor.WHITE then g.player1Hand.incr cp.type
        else g.player1Hand
    | none => g.player1Hand
  let p2 :=
    match capturedPiece with
    | some cp =>
        if g.currentPlayer = PlayerColor.WHITE then g.player2Hand
        else g.player2Hand.incr cp.type
    | none => g.player2Hand
  let isPawnPromotion : Bool :=
    match movingPiece with
    | some p =>
        decide (p.type = PieceType.PAWN) &&
        ((decide (p.color = PlayerColor.WHITE) && decide (toP.row = 5)) ||
         (decide (p.color = PlayerColor.BLACK) && decide (toP.row = 0)))
    | none => false
  { board := newBoard
    currentPlayer := if isPawnPromotion then g.currentPlayer else opponent g.currentPlayer
    player1Hand := p1
    player2Hand := p2
    lastMove := some ⟨f, toP⟩
    checkedKingPosition := g.checkedKingPosition }

/-- `dropPiece` from `game-logic.ts`: `none` when the mover's hand lacks the
piece, the target cell is occupied, or a pawn is dropped on the mover's far
promotion rank; otherwise the new state with the piece placed, the hand
count decremented, the sentinel `lastMove` recorded, and the turn flipped. -/
def dropPiece (g : GameState) (pieceType : PieceType) (toP : Position) :
    Option GameState :=
  if (handOf g g.currentPlayer).get pieceType = 0 then none
  else if (boardGet g.board toP).isSome = true then none
  else if pieceType = PieceType.PAWN ∧
      ((g.currentPlayer = PlayerColor.WHITE ∧ toP.row = 5) ∨
       (g.currentPlayer = PlayerColor.BLACK ∧ toP.row = 0)) then none
  else some
    { board := boardSet g.board toP (some ⟨pieceType, g.currentPlayer⟩)
      currentPlayer := opponent g.currentPlayer
      player1Hand :=
        if g.currentPlayer = PlayerColor.WHITE then g.player1Hand.decr pieceType
        else g.player1Hand
      player2Hand :=
        if g.currentPlayer = PlayerColor.BLACK then g.player2Hand.decr pieceType
        else g.player2Hand
      lastMove := some ⟨⟨-1, -1⟩, toP⟩
      checkedKingPosition := g.checkedKingPosition }

/-- Body of `isKingInCheck`, as a function of the board (the source takes
the full state, but the king scan and the attack scan read only `board`):
find the king (defensive `false` when absent) and run the opponent attack
scan. -/
def isKingInCheckB (b : Board) (kingColor : PlayerColor) : Bool :=
  match findKing b kingColor with
  | none => false
  | some kp => anyAttacker b (opponent kingColor) kp

/-- `isKingInCheck` from `game-logic.ts`. -/
def isKingInCheck (g : GameState) (kingColor : PlayerColor) : Bool :=
  isKingInCheckB g.board kingColor

/-- Hand iteration order of `Object.entries(hand)` (insertion order of the
hand records built in `getInitialGameState`). -/
def handPieceTypes : List PieceType :=
  [.KING, .QUEEN, .ROOK, .BISHOP, .KNIGHT, .PAWN]

/-- The board-move escape scan of `isCheckmate`/`isStalemate`: does any
piece of `color` have a non-empty legal-destination list?  (The source
tests `legalMoves.length > 0` on `isLegalMove(state′, pos, null, true)`
with `currentPlayer` overridden to `color`.) -/
def hasAnyLegalPieceMove (g : GameState) (color : PlayerColor) : Bool :=
  allCells.any fun p =>
    match boardGet g.board p with
    | some pc =>
        decide (pc.color = color) &&
        !(isLegalMove { g with currentPlayer := color } p none true).isEmpty
    | none => false

/-- The pawn-drop restriction test used by the drop loops: dropping a PAWN
on `color`'s far promotion rank is skipped. -/
def pawnDropSkip (t : PieceType) (color : PlayerColor) (p : Position) : Bool :=
  decide (t = PieceType.PAWN) &&
  ((decide (color = PlayerColor.WHITE) && decide (p.row = 5)) ||
   (decide (color = PlayerColor.BLACK) && decide (p.row = 0)))

/-- The drop-escape scan of `isCheckmate`: some held piece type, dropped on
some empty non-restricted cell, leaves the king out of check.  The
simulation copies the state and only writes the board cell. -/
def canDropOutOfCheck (g : GameState) (color : PlayerColor) : Bool :=
  handPieceTypes.any fun t =>
    decide (0 < (handOf g color).get t) &&
    allCells.any fun p =>
      (boardGet g.board p).isNone &&
      !pawnDropSkip t color p &&
      !isKingInCheck { g with board := boardSet g.board p (some ⟨t, color⟩) } color

/-- The drop scan of `isStalemate`: some held piece type has some empty
non-restricted cell to be dropped on (no check condition). -/
def canDropAnywhere (g : GameState) (color : PlayerColor) : Bool :=
  handPieceTypes.any fun t =>
    decide (0 < (handOf g color).get t) &&
    allCells.any fun p =>
      (boardGet g.board p).isNone && !pawnDropSkip t color p

/-- `isCheckmate` from `game-logic.ts`: in check, no legal piece move, and
no drop that resolves the check (the source's early returns written as a
chain of conditionals). -/
def isCheckmate (g : GameState) (playerColor : PlayerColor) : Bool :=
  if isKingInCheck g playerColor = false then false
  else if hasAnyLegalPieceMove g playerColor = true then false
  else if canDropOutOfCheck g playerColor = true then false
  else true

/-- `isStalemate` from `game-logic.ts`: not in check, no legal piece move,
and no empty non-restricted cell for any held piece. -/
def isStalemate (g : GameState) (playerColor : PlayerColor) : Bool :=
  if isKingInCheck g playerColor = true then false
  else if hasAnyLegalPieceMove g playerColor = true then false
  else if canDropAnywhere g playerColor = true then false
  else true

/-- The starting position built by `getInitialGameState`, written out as the
board its cell assignments produce. -/
def initialGameState : GameState :=
  { board :=
      [[some ⟨.KING, .WHITE⟩, some ⟨.ROOK, .WHITE⟩, some ⟨.KNIGHT, .WHITE⟩,
        some ⟨.BISHOP, .WHITE⟩, none, none],
       [some ⟨.PAWN, .WHITE⟩, none, none, none, none, none],
       [none, none, none, none, none, none],
       [none, none, none, none, none, none],
       [none, none, none, none, none, some ⟨.PAWN, .BLACK⟩],
       [none, none, some ⟨.BISHOP, .BLACK⟩, some ⟨.KNIGHT, .BLACK⟩,
        some ⟨.ROOK, .BLACK⟩, some ⟨.KING, .BLACK⟩]]
    currentPlayer := .WHITE
    player1Hand := ⟨0, 0, 0, 0, 0, 0⟩
    player2Hand := ⟨0, 0, 0, 0, 0, 0⟩
    lastMove := none
    checkedKingPosition := none }

/-- At most one king of colour `c` sits on the board (the §3 data-model
invariant the engine assumes). -/
def atMostOneKing (b : Board) (c : PlayerColor) : Prop :=
  ∀ p ∈ allCells, ∀ q ∈ allCells,
    boardGet b p = some ⟨PieceType.KING, c⟩ →
    boardGet b q = some ⟨PieceType.KING, c⟩ → p = q

instance (b : Board) (c : PlayerColor) : Decidable (atMostOneKing b c) := by
  unfold atMostOneKing; infer_instance

/-- A syntactically well-typed state with two WHITE kings (violating the
§3 one-king invariant): kings at (0,0) and (5,5), a BLACK rook at (0,4). -/
def twoKingsState : GameState :=
  { board :=
      [[some ⟨.KING, .WHITE⟩, none, none, none, some ⟨.ROOK, .BLACK⟩, none],
       [none, none, none, none, none, none],
       [none, none, none, none, none, none],
       [none, none, none, none, none, none],
       [none, none, none, none, none, none],
       [none, none, none, none, none, some ⟨.KING, .WHITE⟩]]
    currentPlayer := .WHITE
    player1Hand := ⟨0, 0, 0, 0, 0, 0⟩
    player2Hand := ⟨0, 0, 0, 0, 0, 0⟩
    lastMove := none
    checkedKingPosition := none }

/-- `q` lies strictly between `a` and `d` on a straight or diagonal line:
for some unit direction and distances `1 ≤ k < n`, `d = a + n·dir` and
`q = a + k·dir`. -/
def strictlyBetween (a d q : Position) : Prop :=
  ∃ dr dc : Int, ∃ n k : Nat,
    (dr = -1 ∨ dr = 0 ∨ dr = 1) ∧ (dc = -1 ∨ dc = 0 ∨ dc = 1) ∧
    ¬(dr = 0 ∧ dc = 0) ∧
    1 ≤ k ∧ k < n ∧
    d.row = a.row + n * dr ∧ d.col = a.col + n * dc ∧
    q.row = a.row + k * dr ∧ q.col = a.col + k * dc

/-- State with one WHITE PAWN and one WHITE KNIGHT in hand, otherwise the
initial position. -/
def dropWitnessState : GameState :=
  { initialGameState with player1Hand := ⟨0, 0, 0, 0, 1, 1⟩ }

/-- WHITE to move, WHITE king at (0,0) in check from the BLACK rook at
(0,5); BLACK king at (5,5); WHITE holds a KNIGHT. -/
def checkedDropState : GameState :=
  { board :=
      [[some ⟨.KING, .WHITE⟩, none, none, none, none, some ⟨.ROOK, .BLACK⟩],
       [none, none, none, none, none, none],
       [none, none, none, none, none, none],
       [none, none, none, none, none, none],
       [none, none, none, none, none, none],
       [none, none, none, none, none, some ⟨.KING, .BLACK⟩]]
    currentPlayer := .WHITE
    player1Hand := ⟨0, 0, 0, 0, 1, 0⟩
    player2Hand := ⟨0, 0, 0, 0, 0, 0⟩
    lastMove := none
    checkedKingPosition := none }

/-- `board[r]` in JS: the row array when `r` indexes into the array,
`undefined` (here `none`) otherwise. -/
def jsGetRow (b : Board) (r : Int) : Option (List (Option Piece)) :=
  if 0 ≤ r ∧ r.toNat < b.length then some (b.getD r.toNat []) else none

/-- JS evaluation of `isLegalMove` on the data model's 6×6 boards.  The one
board access not guarded by `isValidPosition` is
`gameState.board[from.row][from.col]`; when `from.row` is outside the board,
`board[from.row]` is `undefined` and indexing it throws a `TypeError`
(modelled as `Except.error ()`); an out-of-range `from.col` merely reads
`undefined` from the row, which the falsy test treats like `null`, so the
function proceeds and returns the pure result. -/
def isLegalMoveJS (g : GameState) (f : Position) (toP : Option Position)
    (getAllLegalMoves : Bool) : Except Unit (List Position) :=
  match jsGetRow g.board f.row with
  | none => Except.error ()
  | some _ => Except.ok (isLegalMove g f toP getAllLegalMoves)

/-- JS evaluation of `dropPiece`: the hand check precedes any board access,
so an empty hand returns `null` even for an off-board target; otherwise the
occupied-cell check `gameState.board[to.row][to.col]` throws when `to.row`
is outside the board, and the call otherwise returns the pure result. -/
def dropPieceJS (g : GameState) (t : PieceType) (p : Position) :
    Except Unit (Option GameState) :=
  if (handOf g g.currentPlayer).get t = 0 then Except.ok none
  else
    match jsGetRow g.board p.row with
    | none => Except.error ()
    | some _ => Except.ok (dropPiece g t p)

/-- A connected player, from the server's room bookkeeping (ids abstracted
to numbers; only `===` comparisons are performed on them). -/
structure Player where
  id : Nat
  color : PlayerColor
  isBot : Bool
deriving DecidableEq, Repr

/-- The slice of a game room `handleGameMove` reads. -/
structure GameRoom where
  players : List Player
  gameState : GameState
  isGameStarted : Bool
deriving DecidableEq, Repr

/-- `message.move.type`: the strings "move" / "drop". -/
inductive ActionKind where
  | move
  | drop
deriving DecidableEq, Repr

/-- `message.move`: type, optional `from`, `to`, optional `pieceType`. -/
structure GameAction where
  kind : ActionKind
  src : Option Position
  dst : Position
  pieceType : Option PieceType
deriving DecidableEq, Repr

/-- A `game_move` message: sending player plus candidate action. -/
structure GameMoveMessage where
  playerId : Nat
  move : GameAction
deriving DecidableEq, Repr

/-- `handleGameMove` from the WebSocket message handler.  The `room?`
argument is the result of `getRoomByPlayer(message.playerId)`; the returned
state is the `newGameState` handed to `updateGameState` and broadcast, and
`none` means the handler returned without a state update.  A "move" action
with a `from` position is executed by `makeMove` directly; a "drop" action
is executed by `dropPiece` (whose own preconditions may yield `null`). -/
def handleGameMove (room? : Option GameRoom) (msg : GameMoveMessage) :
    Option GameState :=
  match room? with
  | none => none
  | some room =>
    if room.isGameStarted = false then none
    else
      match room.players.find? (fun pl => pl.id == msg.playerId) with
      | none => none
      | some player =>
        if room.gameState.currentPlayer ≠ player.color then none
        else
          match msg.move.kind, msg.move.src, msg.move.pieceType with
          | ActionKind.move, some f, _ =>
              some (makeMove room.gameState f msg.move.dst)
          | ActionKind.drop, _, some pt =>
              dropPiece room.gameState pt msg.move.dst
          | _, _, _ => none

/-- A started two-player room on the initial position. -/
def arbiterRoom : GameRoom :=
  { players := [⟨1, .WHITE, false⟩, ⟨2, .BLACK, false⟩]
    gameState := initialGameState
    isGameStarted := true }

/-- Player 1 (WHITE, to move) submits the illegal rook move (0,1) → (3,3). -/
def illegalRookMsg : GameMoveMessage :=
  { playerId := 1
    move := { kind := .move, src := some ⟨0, 1⟩, dst := ⟨3, 3⟩, pieceType := none } }

/-- Player 2 (BLACK) submits a move while WHITE is to move. -/
def outOfTurnMsg : GameMoveMessage :=
  { playerId := 2
    move := { kind := .move, src := some ⟨5, 4⟩, dst := ⟨3, 4⟩, pieceType := none } }

/-! ## Well-formed boards and basic cell lemmas -/

/-- The 6×6 shape of the data model's board (`(Piece | null)[][]` as built
by `getInitialGameState` and preserved by every transition). -/
def WFBoard (b : Board) : Prop :=
  b.length = 6 ∧ ∀ r ∈ b, r.length = 6

instance (b : Board) : Decidable (WFBoard b) := by
  unfold WFBoard; infer_instance

theorem Position.ext_eq {p q : Position} (hr : p.row = q.row)
    (hc : p.col = q.col) : p = q := by
  cases p; cases q
  dsimp only at hr hc
  rw [hr, hc]

theorem mem_allCells {p : Position} :
    p ∈ allCells ↔ isValidPosition p.row p.col = true := by
  constructor
  · intro h
    unfold allCells at h
    rw [List.mem_flatMap] at h
    obtain ⟨r, hr, hmem⟩ := h
    rw [List.mem_map] at hmem
    obtain ⟨c, hc, hp⟩ := hmem
    rw [List.mem_range] at hr hc
    subst hp
    simp only [isValidPosition, Bool.and_eq_true, decide_eq_true_eq]
    refine ⟨⟨⟨?_, ?_⟩, ?_⟩, ?_⟩ <;> dsimp only <;> omega
  · intro hv
    simp only [isValidPosition, Bool.and_eq_true, decide_eq_true_eq] at hv
    obtain ⟨⟨⟨h1, h2⟩, h3⟩, h4⟩ := hv
    unfold allCells
    rw [List.mem_flatMap]
    refine ⟨p.row.toNat, List.mem_range.mpr (by omega), ?_⟩
    rw [List.mem_map]
    refine ⟨p.col.toNat, List.mem_range.mpr (by omega), ?_⟩
    exact Position.ext_eq (by dsimp only; omega) (by dsimp only; omega)

theorem boardGet_valid {b : Board} {p : Position} {pc : Piece}
    (h : boardGet b p = some pc) : isValidPosition p.row p.col = true := by
  by_cases hv : isValidPosition p.row p.col = true
  · exact hv
  · simp [boardGet, hv] at h

theorem WFBoard_boardSet {b : Board} (hwf : WFBoard b) (p : Position)
    (v : Option Piece) : WFBoard (boardSet b p v) := by
  obtain ⟨hlen, hrows⟩ := hwf
  unfold boardSet
  split
  next hv =>
    have hvp : p.row.toNat < b.length := by
      simp only [isValidPosition, Bool.and_eq_true, decide_eq_true_eq] at hv
      omega
    refine ⟨by simpa using hlen, ?_⟩
    intro r hr
    rcases List.mem_or_eq_of_mem_set hr with h | h
    · exact hrows r h
    · subst h
      rw [List.length_set]
      have hmem : b.getD p.row.toNat [] ∈ b := by
        rw [List.getD_eq_getElem?_getD, List.getElem?_eq_getElem hvp]
        exact List.getElem_mem hvp
      exact hrows _ hmem
  next => exact ⟨hlen, hrows⟩

theorem boardGet_boardSet_same {b : Board} (hwf : WFBoard b) {p : Position}
    (hv : isValidPosition p.row p.col = true) (v : Option Piece) :
    boardGet (boardSet b p v) p = v := by
  obtain ⟨hlen, hrows⟩ := hwf
  have hb : p.row.toNat < b.length := by
    simp only [isValidPosition, Bool.and_eq_true, decide_eq_true_eq] at hv
    omega
  have hmem : b.getD p.row.toNat [] ∈ b := by
    rw [List.getD_eq_getElem?_getD, List.getElem?_eq_getElem hb]
    exact List.getElem_mem hb
  have hc : p.col.toNat < (b.getD p.row.toNat []).length := by
    rw [hrows _ hmem]
    simp only [isValidPosition, Bool.and_eq_true, decide_eq_true_eq] at hv
    omega
  have hc' : p.col.toNat < (b[p.row.toNat]?.getD []).length := by
    rw [← List.getD_eq_getElem?_getD]
    exact hc
  simp only [boardGet, boardSet, hv, if_true, List.getD_eq_getElem?_getD]
  rw [List.getElem?_set_self hb]
  simp only [Option.getD_some]
  rw [List.getElem?_set_self hc']
  rfl

theorem boardGet_boardSet_ne {b : Board} {p q : Position}
    (hne : q ≠ p) (v : Option Piece) :
    boardGet (boardSet b p v) q = boardGet b q := by
  by_cases hvp : isValidPosition p.row p.col = true
  · by_cases hvq : isValidPosition q.row q.col = true
    · simp only [boardGet, boardSet, hvp, hvq, if_true, List.getD_eq_getElem?_getD]
      by_cases hrow : p.row.toNat = q.row.toNat
      · have hcol : p.col.toNat ≠ q.col.toNat := by
          simp only [isValidPosition, Bool.and_eq_true, decide_eq_true_eq] at hvp hvq
          intro hcc
          exact hne (Position.ext_eq (by omega) (by omega))
        rw [List.getElem?_set, if_pos hrow]
        by_cases hlen : p.row.toNat < b.length
        · rw [if_pos hlen]
          simp only [Option.getD_some]
          rw [List.getElem?_set_ne hcol, hrow]
        · rw [if_neg hlen]
          simp only [Option.getD_none]
          rw [← hrow, List.getElem?_eq_none (show b.length ≤ p.row.toNat by omega)]
          simp
      · rw [List.getElem?_set_ne hrow]
    · simp [boardGet, hvq]
  · simp [boardSet, hvp]

/-! ## `findKing` characterisation -/

theorem findKing_some {b : Board} {c : PlayerColor} {p : Position}
    (h : findKing b c = some p) :
    boardGet b p = some ⟨PieceType.KING, c⟩ ∧ p ∈ allCells := by
  have hp := List.find?_some h
  have hmem := List.mem_of_find?_eq_some h
  refine ⟨?_, hmem⟩
  cases hbg : boardGet b p with
  | none => simp [hbg] at hp
  | some pc =>
    simp only [hbg, Bool.and_eq_true, decide_eq_true_eq] at hp
    obtain ⟨h1, h2⟩ := hp
    cases pc
    simp_all

theorem findKing_eq_none {b : Board} {c : PlayerColor}
    (h : findKing b c = none) (p : Position) :
    boardGet b p ≠ some ⟨PieceType.KING, c⟩ := by
  intro hbg
  have hv := boardGet_valid hbg
  have := List.find?_eq_none.mp h p (mem_allCells.mpr hv)
  simp [hbg] at this

theorem findKing_eq_some_of_unique {b : Board} {c : PlayerColor} {p : Position}
    (hk : boardGet b p = some ⟨PieceType.KING, c⟩)
    (huniq : ∀ q : Position, boardGet b q = some ⟨PieceType.KING, c⟩ → q = p) :
    findKing b c = some p := by
  have hv := boardGet_valid hk
  cases hfk : findKing b c with
  | none => exact absurd hk (findKing_eq_none hfk p)
  | some q =>
    obtain ⟨hq, _⟩ := findKing_some hfk
    rw [huniq q hq]

/-! ## Characterising potential moves -/

theorem stepMoves_spec {b : Board} {col : PlayerColor} {f : Position}
    {offsets : List (Int × Int)} {d : Position}
    (hd : d ∈ stepMoves b col f offsets) :
    ∃ o ∈ offsets, d = ⟨f.row + o.1, f.col + o.2⟩ ∧
      isValidPosition d.row d.col = true ∧
      (boardGet b d = none ∨ ∃ t, boardGet b d = some t ∧ t.color ≠ col) := by
  unfold stepMoves at hd
  rw [List.mem_filterMap] at hd
  obtain ⟨o, ho, heq⟩ := hd
  refine ⟨o, ho, ?_⟩
  dsimp only at heq
  by_cases hv : isValidPosition (f.row + o.1) (f.col + o.2) = true
  · rw [if_pos hv] at heq
    cases hbg : boardGet b ⟨f.row + o.1, f.col + o.2⟩ with
    | none =>
      rw [hbg] at heq
      try dsimp only at heq
      cases heq
      exact ⟨rfl, hv, Or.inl hbg⟩
    | some t =>
      rw [hbg] at heq
      try dsimp only at heq
      by_cases htc : t.color ≠ col
      · rw [if_pos htc] at heq
        cases heq
        exact ⟨rfl, hv, Or.inr ⟨t, hbg, htc⟩⟩
      · rw [if_neg htc] at heq
        cases heq
  · rw [if_neg hv] at heq
    cases heq

theorem pawnCap_spec {b : Board} {col : PlayerColor} {r c : Int} {d : Position}
    (hd : d ∈ pawnCap b col r c) :
    d = ⟨r, c⟩ ∧ isValidPosition d.row d.col = true ∧
      ∃ t, boardGet b d = some t ∧ t.color ≠ col := by
  unfold pawnCap at hd
  by_cases hv : isValidPosition r c = true
  · rw [if_pos hv] at hd
    cases hbg : boardGet b ⟨r, c⟩ with
    | none =>
      rw [hbg] at hd
      try dsimp only at hd
      cases hd
    | some t =>
      rw [hbg] at hd
      try dsimp only at hd
      by_cases htc : t.color ≠ col
      · rw [if_pos htc] at hd
        rw [List.mem_singleton] at hd
        subst hd
        exact ⟨rfl, hv, t, hbg, htc⟩
      · rw [if_neg htc] at hd
        cases hd
  · rw [if_neg hv] at hd
    cases hd

theorem slideB_spec {b : Board} {col : PlayerColor} :
    ∀ (fuel : Nat) (r c dr dc : Int) (d : Position),
      d ∈ slideB b col r c dr dc fuel →
      ∃ n : Nat, 1 ≤ n ∧ n ≤ fuel ∧
        d.row = r + n * dr ∧ d.col = c + n * dc ∧
        isValidPosition d.row d.col = true ∧
        (boardGet b d = none ∨ ∃ t, boardGet b d = some t ∧ t.color ≠ col) ∧
        ∀ k : Nat, 1 ≤ k → k < n →
          boardGet b ⟨r + k * dr, c + k * dc⟩ = none := by
  intro fuel
  induction fuel with
  | zero =>
    intro r c dr dc d hd
    simp [slideB] at hd
  | succ fuel ih =>
    intro r c dr dc d hd
    rw [slideB] at hd
    try dsimp only at hd
    by_cases hv : isValidPosition (r + dr) (c + dc) = true
    · rw [if_pos hv] at hd
      cases hbg : boardGet b ⟨r + dr, c + dc⟩ with
      | none =>
        rw [hbg] at hd
        try dsimp only at hd
        rcases List.mem_cons.mp hd with hd1 | hd2
        · subst hd1
          refine ⟨1, le_refl 1, by omega, ?_, ?_, hv, Or.inl hbg, ?_⟩
          · dsimp only; push_cast; ring
          · dsimp only; push_cast; ring
          · intro k hk1 hk2; omega
        · obtain ⟨n, hn1, hn2, hrow, hcol, hvv, htgt, hbetween⟩ :=
            ih (r + dr) (c + dc) dr dc d hd2
          refine ⟨n + 1, by omega, by omega, ?_, ?_, hvv, htgt, ?_⟩
          · rw [hrow]; push_cast; ring
          · rw [hcol]; push_cast; ring
          · intro k hk1 hk2
            by_cases hk : k = 1
            · subst hk
              have harg : (⟨r + ((1 : Nat) : Int) * dr, c + ((1 : Nat) : Int) * dc⟩ : Position)
                  = ⟨r + dr, c + dc⟩ := by
                apply Position.ext_eq <;> dsimp only <;> push_cast <;> ring
              rw [harg]
              exact hbg
            · have hcast : ((k - 1 : Nat) : Int) = (k : Int) - 1 := by omega
              have harg : (⟨r + (k : Int) * dr, c + (k : Int) * dc⟩ : Position)
                  = ⟨(r + dr) + ((k - 1 : Nat) : Int) * dr,
                     (c + dc) + ((k - 1 : Nat) : Int) * dc⟩ := by
                apply Position.ext_eq <;> dsimp only <;> rw [hcast] <;> ring
              rw [harg]
              exact hbetween (k - 1) (by omega) (by omega)
      | some t =>
        rw [hbg] at hd
        try dsimp only at hd
        by_cases htc : t.color ≠ col
        · rw [if_pos htc] at hd
          rw [List.mem_singleton] at hd
          subst hd
          refine ⟨1, le_refl 1, by omega, ?_, ?_, hv, Or.inr ⟨t, hbg, htc⟩, ?_⟩
          · dsimp only; push_cast; ring
          · dsimp only; push_cast; ring
          · intro k hk1 hk2; omega
        · rw [if_neg htc] at hd
          cases hd
    · rw [if_neg hv] at hd
      cases hd

/-- `pawnForward` characterisation. -/
theorem pawnForward_spec {b : Board} {f : Position} {dir : Int} {d : Position}
    (hd : d ∈ pawnForward b f dir) :
    d = ⟨f.row + dir, f.col⟩ ∧ isValidPosition d.row d.col = true ∧
      boardGet b d = none := by
  unfold pawnForward at hd
  by_cases hcond : isValidPosition (f.row + dir) f.col = true ∧
      boardGet b ⟨f.row + dir, f.col⟩ = none
  · rw [if_pos hcond, List.mem_singleton] at hd
    subst hd
    exact ⟨rfl, hcond.1, hcond.2⟩
  · rw [if_neg hcond] at hd
    cases hd

/-- Every potential move of the piece at `f` is on the board, never targets a
friendly piece, and differs from `f`. -/
theorem mem_getPotentialMovesB {b : Board} {f d : Position} {piece : Piece}
    (hp : boardGet b f = some piece) (hd : d ∈ getPotentialMovesB b f) :
    isValidPosition d.row d.col = true ∧
    (boardGet b d = none ∨ ∃ t, boardGet b d = some t ∧ t.color ≠ piece.color) ∧
    d ≠ f := by
  obtain ⟨pt, pcol⟩ := piece
  unfold getPotentialMovesB at hd
  rw [hp] at hd
  try dsimp only at hd
  cases pt with
  | KING =>
    obtain ⟨o, ho, hde, hv, htg⟩ := stepMoves_spec hd
    have hno : ∀ o ∈ kingOffsets, ¬(o.1 = 0 ∧ o.2 = 0) := by decide
    refine ⟨hv, htg, ?_⟩
    intro hdf
    apply hno o ho
    have h1 : d.row = f.row + o.1 := by rw [hde]
    have h2 : d.col = f.col + o.2 := by rw [hde]
    rw [hdf] at h1 h2
    constructor <;> omega
  | KNIGHT =>
    obtain ⟨o, ho, hde, hv, htg⟩ := stepMoves_spec hd
    have hno : ∀ o ∈ knightOffsets, ¬(o.1 = 0 ∧ o.2 = 0) := by decide
    refine ⟨hv, htg, ?_⟩
    intro hdf
    apply hno o ho
    have h1 : d.row = f.row + o.1 := by rw [hde]
    have h2 : d.col = f.col + o.2 := by rw [hde]
    rw [hdf] at h1 h2
    constructor <;> omega
  | QUEEN => cases hd
  | ROOK =>
    rcases List.mem_append.mp hd with hd | h4
    rcases List.mem_append.mp hd with hd | h3
    rcases List.mem_append.mp hd with h1 | h2
    · obtain ⟨n, hn1, _, hrow, hcol, hv, htg, _⟩ := slideB_spec 5 f.row f.col 0 (-1) d h1
      refine ⟨hv, htg, ?_⟩
      intro hdf
      rw [hdf] at hcol
      omega
    · obtain ⟨n, hn1, _, hrow, hcol, hv, htg, _⟩ := slideB_spec 5 f.row f.col 0 1 d h2
      refine ⟨hv, htg, ?_⟩
      intro hdf
      rw [hdf] at hcol
      omega
    · obtain ⟨n, hn1, _, hrow, hcol, hv, htg, _⟩ := slideB_spec 5 f.row f.col (-1) 0 d h3
      refine ⟨hv, htg, ?_⟩
      intro hdf
      rw [hdf] at hrow
      omega
    · obtain ⟨n, hn1, _, hrow, hcol, hv, htg, _⟩ := slideB_spec 5 f.row f.col 1 0 d h4
      refine ⟨hv, htg, ?_⟩
      intro hdf
      rw [hdf] at hrow
      omega
  | BISHOP =>
    rcases List.mem_append.mp hd with hd | h4
    rcases List.mem_append.mp hd with hd | h3
    rcases List.mem_append.mp hd with h1 | h2
    · obtain ⟨n, hn1, _, hrow, hcol, hv, htg, _⟩ := slideB_spec 5 f.row f.col (-1) (-1) d h1
      refine ⟨hv, htg, ?_⟩
      intro hdf
      rw [hdf] at hrow
      omega
    · obtain ⟨n, hn1, _, hrow, hcol, hv, htg, _⟩ := slideB_spec 5 f.row f.col (-1) 1 d h2
      refine ⟨hv, htg, ?_⟩
      intro hdf
      rw [hdf] at hrow
      omega
    · obtain ⟨n, hn1, _, hrow, hcol, hv, htg, _⟩ := slideB_spec 5 f.row f.col 1 (-1) d h3
      refine ⟨hv, htg, ?_⟩
      intro hdf
      rw [hdf] at hrow
      omega
    · obtain ⟨n, hn1, _, hrow, hcol, hv, htg, _⟩ := slideB_spec 5 f.row f.col 1 1 d h4
      refine ⟨hv, htg, ?_⟩
      intro hdf
      rw [hdf] at hrow
      omega
  | PAWN =>
    rcases List.mem_append.mp hd with hd2 | hcap
    · rcases List.mem_append.mp hd2 with hfwd | hcap
      · obtain ⟨hde, hv, hempty⟩ := pawnForward_spec hfwd
        refine ⟨hv, Or.inl hempty, ?_⟩
        intro hdf
        cases pcol with
        | WHITE =>
          have h1 : d.row = f.row + 1 := by
            rw [hde]; dsimp only; rw [if_pos rfl]
          rw [hdf] at h1
          omega
        | BLACK =>
          have h1 : d.row = f.row + -1 := by
            rw [hde]; dsimp only; rw [if_neg (by decide)]
          rw [hdf] at h1
          omega
      · obtain ⟨hde, hv, t, htg, htc⟩ := pawnCap_spec hcap
        refine ⟨hv, Or.inr ⟨t, htg, htc⟩, ?_⟩
        intro hdf
        have h1 : d.col = f.col - 1 := by rw [hde]
        rw [hdf] at h1
        omega
    · obtain ⟨hde, hv, t, htg, htc⟩ := pawnCap_spec hcap
      refine ⟨hv, Or.inr ⟨t, htg, htc⟩, ?_⟩
      intro hdf
      have h1 : d.col = f.col + 1 := by rw [hde]
      rw [hdf] at h1
      omega

/-- Sliding pieces only reach a cell through a run of empty cells: any ROOK
or BISHOP potential move lies `n ≥ 1` steps along a unit direction with all
strictly intermediate cells empty. -/
theorem slider_moves_spec {b : Board} {f d : Position} {piece : Piece}
    (hp : boardGet b f = some piece)
    (ht : piece.type = PieceType.ROOK ∨ piece.type = PieceType.BISHOP)
    (hd : d ∈ getPotentialMovesB b f) :
    ∃ dr dc : Int, (dr = -1 ∨ dr = 0 ∨ dr = 1) ∧ (dc = -1 ∨ dc = 0 ∨ dc = 1) ∧
      ¬(dr = 0 ∧ dc = 0) ∧
      ∃ n : Nat, 1 ≤ n ∧
        d.row = f.row + n * dr ∧ d.col = f.col + n * dc ∧
        ∀ k : Nat, 1 ≤ k → k < n →
          boardGet b ⟨f.row + k * dr, f.col + k * dc⟩ = none := by
  obtain ⟨pt, pcol⟩ := piece
  unfold getPotentialMovesB at hd
  rw [hp] at hd
  try dsimp only at hd
  dsimp only at ht
  rcases ht with rfl | rfl
  · rcases List.mem_append.mp hd with hd | h4
    rcases List.mem_append.mp hd with hd | h3
    rcases List.mem_append.mp hd with h1 | h2
    · obtain ⟨n, hn1, _, hrow, hcol, _, _, hbet⟩ := slideB_spec 5 f.row f.col 0 (-1) d h1
      exact ⟨0, -1, by omega, by omega, by omega, n, hn1, hrow, hcol, hbet⟩
    · obtain ⟨n, hn1, _, hrow, hcol, _, _, hbet⟩ := slideB_spec 5 f.row f.col 0 1 d h2
      exact ⟨0, 1, by omega, by omega, by omega, n, hn1, hrow, hcol, hbet⟩
    · obtain ⟨n, hn1, _, hrow, hcol, _, _, hbet⟩ := slideB_spec 5 f.row f.col (-1) 0 d h3
      exact ⟨-1, 0, by omega, by omega, by omega, n, hn1, hrow, hcol, hbet⟩
    · obtain ⟨n, hn1, _, hrow, hcol, _, _, hbet⟩ := slideB_spec 5 f.row f.col 1 0 d h4
      exact ⟨1, 0, by omega, by omega, by omega, n, hn1, hrow, hcol, hbet⟩
  · rcases List.mem_append.mp hd with hd | h4
    rcases List.mem_append.mp hd with hd | h3
    rcases List.mem_append.mp hd with h1 | h2
    · obtain ⟨n, hn1, _, hrow, hcol, _, _, hbet⟩ := slideB_spec 5 f.row f.col (-1) (-1) d h1
      exact ⟨-1, -1, by omega, by omega, by omega, n, hn1, hrow, hcol, hbet⟩
    · obtain ⟨n, hn1, _, hrow, hcol, _, _, hbet⟩ := slideB_spec 5 f.row f.col (-1) 1 d h2
      exact ⟨-1, 1, by omega, by omega, by omega, n, hn1, hrow, hcol, hbet⟩
    · obtain ⟨n, hn1, _, hrow, hcol, _, _, hbet⟩ := slideB_spec 5 f.row f.col 1 (-1) d h3
      exact ⟨1, -1, by omega, by omega, by omega, n, hn1, hrow, hcol, hbet⟩
    · obtain ⟨n, hn1, _, hrow, hcol, _, _, hbet⟩ := slideB_spec 5 f.row f.col 1 1 d h4
      exact ⟨1, 1, by omega, by omega, by omega, n, hn1, hrow, hcol, hbet⟩

/-! ## Legal moves never leave the mover in check -/

/-- Unfolding of membership in the full legal-move list. -/
theorem mem_isLegalMove_all {g : GameState} {f d : Position}
    (hd : d ∈ isLegalMove g f none true) :
    ∃ piece, boardGet g.board f = some piece ∧ piece.color = g.currentPlayer ∧
      d ∈ getPotentialMovesB g.board f ∧ wouldKingBeInCheck g f d = false := by
  unfold isLegalMove at hd
  cases hbg : boardGet g.board f with
  | none =>
    rw [hbg] at hd
    try dsimp only at hd
    cases hd
  | some piece =>
    rw [hbg] at hd
    try dsimp only at hd
    by_cases hcol : piece.color ≠ g.currentPlayer
    · rw [if_pos hcol] at hd
      cases hd
    · rw [if_neg hcol] at hd
      push_neg at hcol
      try dsimp only at hd
      rw [List.mem_filter] at hd
      refine ⟨piece, rfl, hcol, hd.1, ?_⟩
      have h2 := hd.2
      rwa [Bool.not_eq_true'] at h2

/-- C1 (amended): on a well-formed board holding at most one king of the
current player, every destination accepted by `isLegalMove` leads, through
`makeMove`, to a state in which the mover is not in check.  The simulated
board of `wouldKingBeInCheck` coincides with the board `makeMove` builds, so
the self-check filter is sound. -/
theorem legal_moves_never_self_check (g : GameState) (f d : Position)
    (hwf : WFBoard g.board)
    (huniq : atMostOneKing g.board g.currentPlayer)
    (hd : d ∈ isLegalMove g f none true) :
    isKingInCheck (makeMove g f d) g.currentPlayer = false := by
  obtain ⟨piece, hbg, hcol, hpm, hwk⟩ := mem_isLegalMove_all hd
  obtain ⟨hvd, htgt, hne⟩ := mem_getPotentialMovesB hbg hpm
  have hvf : isValidPosition f.row f.col = true := boardGet_valid hbg
  have hwfX : WFBoard (boardSet g.board d (some piece)) :=
    WFBoard_boardSet hwf d (some piece)
  -- the simulated board shared by makeMove and wouldKingBeInCheck
  have hb2f : boardGet (boardSet (boardSet g.board d (some piece)) f none) f = none :=
    boardGet_boardSet_same hwfX hvf none
  have hb2d : boardGet (boardSet (boardSet g.board d (some piece)) f none) d
      = some piece := by
    rw [boardGet_boardSet_ne hne, boardGet_boardSet_same hwf hvd]
  have hb2other : ∀ q : Position, q ≠ f → q ≠ d →
      boardGet (boardSet (boardSet g.board d (some piece)) f none) q
        = boardGet g.board q := by
    intro q hqf hqd
    rw [boardGet_boardSet_ne hqf, boardGet_boardSet_ne hqd]
  have hboard : (makeMove g f d).board
      = boardSet (boardSet g.board d (some piece)) f none := by
    unfold makeMove
    dsimp only
    rw [hbg]
  have hgoal : isKingInCheck (makeMove g f d) g.currentPlayer
      = isKingInCheckB (boardSet (boardSet g.board d (some piece)) f none)
          g.currentPlayer := by
    unfold isKingInCheck
    rw [hboard]
  rw [hgoal]
  unfold wouldKingBeInCheck at hwk
  rw [hbg] at hwk
  try dsimp only at hwk
  by_cases hking : piece.type = PieceType.KING
  · rw [if_pos hking] at hwk
    try dsimp only at hwk
    have hpk : piece = ⟨PieceType.KING, g.currentPlayer⟩ := by
      cases piece
      dsimp only at hking hcol
      rw [hking, hcol]
    have hkd : boardGet (boardSet (boardSet g.board d (some piece)) f none) d
        = some ⟨PieceType.KING, g.currentPlayer⟩ := by
      rw [hb2d, hpk]
    have huniq2 : ∀ q : Position,
        boardGet (boardSet (boardSet g.board d (some piece)) f none) q
          = some ⟨PieceType.KING, g.currentPlayer⟩ → q = d := by
      intro q hq
      by_cases hqf : q = f
      · subst hqf
        rw [hb2f] at hq
        cases hq
      · by_cases hqd : q = d
        · exact hqd
        · rw [hb2other q hqf hqd] at hq
          have hqv := boardGet_valid hq
          have hfk : boardGet g.board f
              = some ⟨PieceType.KING, g.currentPlayer⟩ := by rw [hbg, hpk]
          have := huniq q (mem_allCells.mpr hqv) f (mem_allCells.mpr hvf) hq hfk
          exact absurd this hqf
    have hfk2 := findKing_eq_some_of_unique hkd huniq2
    unfold isKingInCheckB
    rw [hfk2]
    exact hwk
  · rw [if_neg hking] at hwk
    cases hfk0 : findKing g.board g.currentPlayer with
    | none =>
      cases hfk2 : findKing (boardSet (boardSet g.board d (some piece)) f none)
          g.currentPlayer with
      | none =>
        unfold isKingInCheckB
        rw [hfk2]
      | some q =>
        exfalso
        obtain ⟨hq, _⟩ := findKing_some hfk2
        by_cases hqf : q = f
        · subst hqf
          rw [hb2f] at hq
          cases hq
        · by_cases hqd : q = d
          · subst hqd
            rw [hb2d] at hq
            injection hq with hq2
            rw [hq2] at hking
            exact hking rfl
          · rw [hb2other q hqf hqd] at hq
            exact findKing_eq_none hfk0 q hq
    | some k =>
      rw [hfk0] at hwk
      try dsimp only at hwk
      obtain ⟨hkb, _⟩ := findKing_some hfk0
      have hkf : k ≠ f := by
        intro h
        subst h
        rw [hbg] at hkb
        injection hkb with hk2
        rw [hk2] at hking
        exact hking rfl
      have hkd : k ≠ d := by
        intro h
        subst h
        rcases htgt with hnone | ⟨t, ht, htc⟩
        · rw [hnone] at hkb
          cases hkb
        · rw [ht] at hkb
          injection hkb with hk2
          rw [hk2] at htc
          dsimp only at htc
          rw [hcol] at htc
          exact htc rfl
      have hkb2 : boardGet (boardSet (boardSet g.board d (some piece)) f none) k
          = some ⟨PieceType.KING, g.currentPlayer⟩ := by
        rw [hb2other k hkf hkd]
        exact hkb
      have huniq2 : ∀ q : Position,
          boardGet (boardSet (boardSet g.board d (some piece)) f none) q
            = some ⟨PieceType.KING, g.currentPlayer⟩ → q = k := by
        intro q hq
        by_cases hqf : q = f
        · subst hqf
          rw [hb2f] at hq
          cases hq
        · by_cases hqd : q = d
          · subst hqd
            rw [hb2d] at hq
            injection hq with hq2
            rw [hq2] at hking
            exact absurd rfl hking
          · rw [hb2other q hqf hqd] at hq
            have hqv := boardGet_valid hq
            have hkv := boardGet_valid hkb
            exact huniq q (mem_allCells.mpr hqv) k (mem_allCells.mpr hkv) hq hkb
      have hfk2 := findKing_eq_some_of_unique hkb2 huniq2
      unfold isKingInCheckB
      rw [hfk2]
      exact hwk

/-! ## Checkmate and stalemate characterisations -/

theorem mem_handPieceTypes (t : PieceType) : t ∈ handPieceTypes := by
  cases t <;> decide

theorem hasAnyLegalPieceMove_eq_false_iff (g : GameState) (c : PlayerColor) :
    hasAnyLegalPieceMove g c = false ↔
      ∀ p : Position, isValidPosition p.row p.col = true →
        ∀ pc : Piece, boardGet g.board p = some pc → pc.color = c →
          isLegalMove { g with currentPlayer := c } p none true = [] := by
  rw [← Bool.not_eq_true]
  unfold hasAnyLegalPieceMove
  rw [List.any_eq_true]
  constructor
  · intro h p hv pc hpc hcol
    by_contra hne
    apply h
    refine ⟨p, mem_allCells.mpr hv, ?_⟩
    rw [hpc]
    try dsimp only
    rw [Bool.and_eq_true]
    refine ⟨decide_eq_true hcol, ?_⟩
    rw [Bool.not_eq_true', List.isEmpty_eq_false]
    exact hne
  · intro h hex
    obtain ⟨p, hpmem, hpred⟩ := hex
    cases hpc : boardGet g.board p with
    | none =>
      rw [hpc] at hpred
      try dsimp only at hpred
      exact Bool.noConfusion hpred
    | some pc =>
      rw [hpc] at hpred
      try dsimp only at hpred
      rw [Bool.and_eq_true] at hpred
      obtain ⟨hc1, hc2⟩ := hpred
      have heq := h p (mem_allCells.mp hpmem) pc hpc (of_decide_eq_true hc1)
      rw [Bool.not_eq_true', List.isEmpty_eq_false] at hc2
      exact hc2 heq

theorem canDropOutOfCheck_eq_true_iff (g : GameState) (c : PlayerColor) :
    canDropOutOfCheck g c = true ↔
      ∃ t : PieceType, 0 < (handOf g c).get t ∧
        ∃ p : Position, isValidPosition p.row p.col = true ∧
          boardGet g.board p = none ∧ pawnDropSkip t c p = false ∧
          isKingInCheck { g with board := boardSet g.board p (some ⟨t, c⟩) } c
            = false := by
  unfold canDropOutOfCheck
  rw [List.any_eq_true]
  constructor
  · rintro ⟨t, _, hpred⟩
    rw [Bool.and_eq_true] at hpred
    obtain ⟨h1, h2⟩ := hpred
    rw [List.any_eq_true] at h2
    obtain ⟨p, hpmem, hp⟩ := h2
    rw [Bool.and_eq_true, Bool.and_eq_true] at hp
    obtain ⟨⟨he, hs⟩, hk⟩ := hp
    rw [Option.isNone_iff_eq_none] at he
    rw [Bool.not_eq_true'] at hs hk
    exact ⟨t, of_decide_eq_true h1, p, mem_allCells.mp hpmem, he, hs, hk⟩
  · rintro ⟨t, ht, p, hv, hempty, hskip, hcheck⟩
    refine ⟨t, mem_handPieceTypes t, ?_⟩
    rw [Bool.and_eq_true]
    refine ⟨decide_eq_true ht, ?_⟩
    rw [List.any_eq_true]
    refine ⟨p, mem_allCells.mpr hv, ?_⟩
    rw [Bool.and_eq_true, Bool.and_eq_true]
    refine ⟨⟨?_, ?_⟩, ?_⟩
    · rw [Option.isNone_iff_eq_none]
      exact hempty
    · rw [Bool.not_eq_true']
      exact hskip
    · rw [Bool.not_eq_true']
      exact hcheck

theorem canDropAnywhere_eq_true_iff (g : GameState) (c : PlayerColor) :
    canDropAnywhere g c = true ↔
      ∃ t : PieceType, 0 < (handOf g c).get t ∧
        ∃ p : Position, isValidPosition p.row p.col = true ∧
          boardGet g.board p = none ∧ pawnDropSkip t c p = false := by
  unfold canDropAnywhere
  rw [List.any_eq_true]
  constructor
  · rintro ⟨t, _, hpred⟩
    rw [Bool.and_eq_true] at hpred
    obtain ⟨h1, h2⟩ := hpred
    rw [List.any_eq_true] at h2
    obtain ⟨p, hpmem, hp⟩ := h2
    rw [Bool.and_eq_true] at hp
    obtain ⟨he, hs⟩ := hp
    rw [Option.isNone_iff_eq_none] at he
    rw [Bool.not_eq_true'] at hs
    exact ⟨t, of_decide_eq_true h1, p, mem_allCells.mp hpmem, he, hs⟩
  · rintro ⟨t, ht, p, hv, hempty, hskip⟩
    refine ⟨t, mem_handPieceTypes t, ?_⟩
    rw [Bool.and_eq_true]
    refine ⟨decide_eq_true ht, ?_⟩
    rw [List.any_eq_true]
    refine ⟨p, mem_allCells.mpr hv, ?_⟩
    rw [Bool.and_eq_true]
    refine ⟨?_, ?_⟩
    · rw [Option.isNone_iff_eq_none]
      exact hempty
    · rw [Bool.not_eq_true']
      exact hskip

/-- C2: `isCheckmate` is false whenever the king is not in check; when it is
in check, `isCheckmate` holds exactly when (1) no piece of that colour has a
legal destination and (2) every permitted drop of a held piece on an empty
cell (skipping the pawn promotion rank) still leaves the king in check. -/
theorem checkmate_spec (g : GameState) (c : PlayerColor) :
    isCheckmate g c = true ↔
      (isKingInCheck g c = true ∧
       (∀ p : Position, isValidPosition p.row p.col = true →
          ∀ pc : Piece, boardGet g.board p = some pc → pc.color = c →
            isLegalMove { g with currentPlayer := c } p none true = []) ∧
       (∀ t : PieceType, 0 < (handOf g c).get t →
          ∀ p : Position, isValidPosition p.row p.col = true →
            boardGet g.board p = none → pawnDropSkip t c p = false →
              isKingInCheck { g with board := boardSet g.board p (some ⟨t, c⟩) } c
                = true)) := by
  unfold isCheckmate
  by_cases h1 : isKingInCheck g c = false
  · rw [if_pos h1]
    constructor
    · intro hF
      exact Bool.noConfusion hF
    · rintro ⟨h1', _, _⟩
      rw [h1] at h1'
      exact Bool.noConfusion h1'
  · rw [if_neg h1]
    have h1' : isKingInCheck g c = true := by
      cases hb : isKingInCheck g c with
      | false => exact absurd hb h1
      | true => rfl
    by_cases h2 : hasAnyLegalPieceMove g c = true
    · rw [if_pos h2]
      constructor
      · intro hF
        exact Bool.noConfusion hF
      · rintro ⟨_, hmoves, _⟩
        have hfalse := (hasAnyLegalPieceMove_eq_false_iff g c).mpr hmoves
        rw [hfalse] at h2
        exact Bool.noConfusion h2
    · rw [if_neg h2]
      have h2' : hasAnyLegalPieceMove g c = false := by
        cases hb : hasAnyLegalPieceMove g c with
        | false => rfl
        | true => exact absurd hb h2
      by_cases h3 : canDropOutOfCheck g c = true
      · rw [if_pos h3]
        constructor
        · intro hF
          exact Bool.noConfusion hF
        · rintro ⟨_, _, hdrops⟩
          obtain ⟨t, ht, p, hv, hempty, hskip, hcheck⟩ :=
            (canDropOutOfCheck_eq_true_iff g c).mp h3
          have := hdrops t ht p hv hempty hskip
          rw [this] at hcheck
          exact Bool.noConfusion hcheck
      · rw [if_neg h3]
        have h3' : canDropOutOfCheck g c = false := by
          cases hb : canDropOutOfCheck g c with
          | false => rfl
          | true => exact absurd hb h3
        constructor
        · intro _
          refine ⟨h1', (hasAnyLegalPieceMove_eq_false_iff g c).mp h2', ?_⟩
          intro t ht p hv hempty hskip
          cases hck : isKingInCheck { g with board := boardSet g.board p (some ⟨t, c⟩) } c with
          | true => rfl
          | false =>
            have : canDropOutOfCheck g c = true :=
              (canDropOutOfCheck_eq_true_iff g c).mpr ⟨t, ht, p, hv, hempty, hskip, hck⟩
            rw [h3'] at this
            exact Bool.noConfusion this
        · intro _
          rfl

/-- C5: `isStalemate` is false whenever the king is in check; otherwise it
holds exactly when no piece of that colour has a legal destination and no
held piece type has any empty, non-promotion-restricted cell to be dropped
on (the drop need not resolve anything). -/
theorem stalemate_spec (g : GameState) (c : PlayerColor) :
    isStalemate g c = true ↔
      (isKingInCheck g c = false ∧
       (∀ p : Position, isValidPosition p.row p.col = true →
          ∀ pc : Piece, boardGet g.board p = some pc → pc.color = c →
            isLegalMove { g with currentPlayer := c } p none true = []) ∧
       ¬∃ t : PieceType, 0 < (handOf g c).get t ∧
          ∃ p : Position, isValidPosition p.row p.col = true ∧
            boardGet g.board p = none ∧ pawnDropSkip t c p = false) := by
  unfold isStalemate
  by_cases h1 : isKingInCheck g c = true
  · rw [if_pos h1]
    constructor
    · intro hF
      exact Bool.noConfusion hF
    · rintro ⟨h1', _, _⟩
      rw [h1] at h1'
      exact Bool.noConfusion h1'
  · rw [if_neg h1]
    have h1' : isKingInCheck g c = false := by
      cases hb : isKingInCheck g c with
      | true => exact absurd hb h1
      | false => rfl
    by_cases h2 : hasAnyLegalPieceMove g c = true
    · rw [if_pos h2]
      constructor
      · intro hF
        exact Bool.noConfusion hF
      · rintro ⟨_, hmoves, _⟩
        have hfalse := (hasAnyLegalPieceMove_eq_false_iff g c).mpr hmoves
        rw [hfalse] at h2
        exact Bool.noConfusion h2
    · rw [if_neg h2]
      have h2' : hasAnyLegalPieceMove g c = false := by
        cases hb : hasAnyLegalPieceMove g c with
        | false => rfl
        | true => exact absurd hb h2
      by_cases h3 : canDropAnywhere g c = true
      · rw [if_pos h3]
        constructor
        · intro hF
          exact Bool.noConfusion hF
        · rintro ⟨_, _, hdrops⟩
          exact absurd ((canDropAnywhere_eq_true_iff g c).mp h3) hdrops
      · rw [if_neg h3]
        constructor
        · intro _
          refine ⟨h1', (hasAnyLegalPieceMove_eq_false_iff g c).mp h2', ?_⟩
          intro hex
          exact h3 ((canDropAnywhere_eq_true_iff g c).mpr hex)
        · intro _
          rfl

/-! ## Drop and move transition effects -/

theorem Hand.get_decr_self (h : Hand) (t : PieceType) (hne : h.get t ≠ 0) :
    (h.decr t).get t + 1 = h.get t := by
  cases t <;> simp [Hand.decr, Hand.set, Hand.get] at hne ⊢ <;> omega

/-- The three failure checks of `dropPiece`, exactly as the source orders
them. -/
theorem dropPiece_eq_none_iff (g : GameState) (t : PieceType) (p : Position) :
    dropPiece g t p = none ↔
      ((handOf g g.currentPlayer).get t = 0 ∨ (boardGet g.board p).isSome = true ∨
       (t = PieceType.PAWN ∧
        ((g.currentPlayer = PlayerColor.WHITE ∧ p.row = 5) ∨
         (g.currentPlayer = PlayerColor.BLACK ∧ p.row = 0)))) := by
  unfold dropPiece
  by_cases h1 : (handOf g g.currentPlayer).get t = 0
  · rw [if_pos h1]
    exact ⟨fun _ => Or.inl h1, fun _ => rfl⟩
  · rw [if_neg h1]
    by_cases h2 : (boardGet g.board p).isSome = true
    · rw [if_pos h2]
      exact ⟨fun _ => Or.inr (Or.inl h2), fun _ => rfl⟩
    · rw [if_neg h2]
      by_cases h3 : t = PieceType.PAWN ∧
          ((g.currentPlayer = PlayerColor.WHITE ∧ p.row = 5) ∨
           (g.currentPlayer = PlayerColor.BLACK ∧ p.row = 0))
      · rw [if_pos h3]
        exact ⟨fun _ => Or.inr (Or.inr h3), fun _ => rfl⟩
      · rw [if_neg h3]
        constructor
        · intro h
          exact Option.noConfusion h
        · rintro (hc | hc | hc)
          · exact absurd hc h1
          · exact absurd hc h2
          · exact absurd hc h3

/-- Field-level description of a successful `dropPiece`. -/
theorem dropPiece_success_fields {g : GameState} {t : PieceType} {p : Position}
    {g2 : GameState} (h : dropPiece g t p = some g2) :
    g2.board = boardSet g.board p (some ⟨t, g.currentPlayer⟩) ∧
    g2.currentPlayer = opponent g.currentPlayer ∧
    g2.player1Hand = (if g.currentPlayer = PlayerColor.WHITE
      then g.player1Hand.decr t else g.player1Hand) ∧
    g2.player2Hand = (if g.currentPlayer = PlayerColor.BLACK
      then g.player2Hand.decr t else g.player2Hand) ∧
    g2.lastMove = some ⟨⟨-1, -1⟩, p⟩ ∧
    g2.checkedKingPosition = g.checkedKingPosition ∧
    (handOf g g.currentPlayer).get t ≠ 0 ∧
    boardGet g.board p = none := by
  unfold dropPiece at h
  by_cases h1 : (handOf g g.currentPlayer).get t = 0
  · rw [if_pos h1] at h
    exact Option.noConfusion h
  · rw [if_neg h1] at h
    by_cases h2 : (boardGet g.board p).isSome = true
    · rw [if_pos h2] at h
      exact Option.noConfusion h
    · rw [if_neg h2] at h
      by_cases h3 : t = PieceType.PAWN ∧
          ((g.currentPlayer = PlayerColor.WHITE ∧ p.row = 5) ∨
           (g.currentPlayer = PlayerColor.BLACK ∧ p.row = 0))
      · rw [if_pos h3] at h
        exact Option.noConfusion h
      · rw [if_neg h3] at h
        injection h with h
        subst h
        refine ⟨rfl, rfl, rfl, rfl, rfl, rfl, h1, ?_⟩
        cases hbg : boardGet g.board p with
        | none => rfl
        | some pc =>
          rw [hbg] at h2
          exact absurd rfl h2

/-- C3: on a well-formed board and an on-board cell, `dropPiece` fails
exactly when the mover's hand lacks the piece, the cell is occupied, or a
pawn is dropped on the mover's far promotion rank; a successful drop places
`{pieceType, mover}` on the cell, decrements the mover's hand count by
exactly one, records the off-board-sentinel `lastMove`, and flips the turn
unconditionally. -/
theorem dropPiece_spec (g : GameState) (t : PieceType) (p : Position)
    (hwf : WFBoard g.board) (hv : isValidPosition p.row p.col = true) :
    (dropPiece g t p = none ↔
      ((handOf g g.currentPlayer).get t = 0 ∨ (boardGet g.board p).isSome = true ∨
       (t = PieceType.PAWN ∧
        ((g.currentPlayer = PlayerColor.WHITE ∧ p.row = 5) ∨
         (g.currentPlayer = PlayerColor.BLACK ∧ p.row = 0))))) ∧
    (∀ g2, dropPiece g t p = some g2 →
      boardGet g2.board p = some ⟨t, g.currentPlayer⟩ ∧
      (handOf g2 g.currentPlayer).get t + 1 = (handOf g g.currentPlayer).get t ∧
      g2.lastMove = some ⟨⟨-1, -1⟩, p⟩ ∧
      g2.currentPlayer = opponent g.currentPlayer) := by
  refine ⟨dropPiece_eq_none_iff g t p, ?_⟩
  intro g2 hg2
  obtain ⟨hb, hcp, hp1, hp2, hlm, _, hcount, _⟩ := dropPiece_success_fields hg2
  refine ⟨?_, ?_, hlm, hcp⟩
  · rw [hb]
    exact boardGet_boardSet_same hwf hv _
  · cases hcur : g.currentPlayer with
    | WHITE =>
      rw [hcur] at hp1 hcount
      simp only [handOf, hp1, if_pos rfl]
      simp only [handOf, hcur] at hcount ⊢
      exact Hand.get_decr_self g.player1Hand t hcount
    | BLACK =>
      rw [hcur] at hp2 hcount
      simp only [handOf, hp2, if_pos rfl]
      simp only [handOf, hcur] at hcount ⊢
      exact Hand.get_decr_self g.player2Hand t hcount

/-- C9: drops are never filtered for self-check: whenever the mover's hand
holds the piece, the on-board target cell is empty, and the pawn
promotion-rank restriction does not apply, `dropPiece` succeeds — there is
no check-resolution condition of any kind. -/
theorem drops_not_filtered_for_check (g : GameState) (t : PieceType) (p : Position)
    (_hv : isValidPosition p.row p.col = true)
    (hcount : 0 < (handOf g g.currentPlayer).get t)
    (hempty : boardGet g.board p = none)
    (hpawn : ¬(t = PieceType.PAWN ∧
      ((g.currentPlayer = PlayerColor.WHITE ∧ p.row = 5) ∨
       (g.currentPlayer = PlayerColor.BLACK ∧ p.row = 0)))) :
    ∃ g2, dropPiece g t p = some g2 := by
  cases hdp : dropPiece g t p with
  | some g2 => exact ⟨g2, rfl⟩
  | none =>
    rcases (dropPiece_eq_none_iff g t p).mp hdp with hc | hc | hc
    · omega
    · rw [hempty] at hc
      exact Bool.noConfusion hc
    · exact absurd hc hpawn

/-- C4: turn alternation — `makeMove` flips `currentPlayer` unless the moved
piece is a PAWN landing on its far rank (row 5 for WHITE, row 0 for BLACK),
in which case the turn is left unchanged (promotion pending); every
successful `dropPiece` flips the turn. -/
theorem turn_alternation (g : GameState) (f p : Position) (t : PieceType)
    (_hv : isValidPosition p.row p.col = true) :
    (∀ pc : Piece, boardGet g.board f = some pc →
      ¬(pc.type = PieceType.PAWN ∧
        ((pc.color = PlayerColor.WHITE ∧ p.row = 5) ∨
         (pc.color = PlayerColor.BLACK ∧ p.row = 0))) →
      (makeMove g f p).currentPlayer = opponent g.currentPlayer) ∧
    (∀ pc : Piece, boardGet g.board f = some pc →
      pc.type = PieceType.PAWN →
      ((pc.color = PlayerColor.WHITE ∧ p.row = 5) ∨
       (pc.color = PlayerColor.BLACK ∧ p.row = 0)) →
      (makeMove g f p).currentPlayer = g.currentPlayer) ∧
    (∀ g2, dropPiece g t p = some g2 →
      g2.currentPlayer = opponent g.currentPlayer) := by
  refine ⟨?_, ?_, ?_⟩
  · intro pc hbg hnprom
    unfold makeMove
    dsimp only
    rw [hbg]
    try dsimp only
    have hb : (decide (pc.type = PieceType.PAWN) &&
        ((decide (pc.color = PlayerColor.WHITE) && decide (p.row = 5)) ||
         (decide (pc.color = PlayerColor.BLACK) && decide (p.row = 0)))) = false := by
      rw [Bool.eq_false_iff]
      intro hb
      apply hnprom
      rw [Bool.and_eq_true, Bool.or_eq_true, Bool.and_eq_true, Bool.and_eq_true] at hb
      obtain ⟨hb1, hb2⟩ := hb
      refine ⟨of_decide_eq_true hb1, ?_⟩
      rcases hb2 with ⟨hw, hr⟩ | ⟨hw, hr⟩
      · exact Or.inl ⟨of_decide_eq_true hw, of_decide_eq_true hr⟩
      · exact Or.inr ⟨of_decide_eq_true hw, of_decide_eq_true hr⟩
    rw [hb, if_neg Bool.false_ne_true]
  · intro pc hbg htype hprom
    unfold makeMove
    dsimp only
    rw [hbg]
    try dsimp only
    have hb : (decide (pc.type = PieceType.PAWN) &&
        ((decide (pc.color = PlayerColor.WHITE) && decide (p.row = 5)) ||
         (decide (pc.color = PlayerColor.BLACK) && decide (p.row = 0)))) = true := by
      rw [Bool.and_eq_true, Bool.or_eq_true, Bool.and_eq_true, Bool.and_eq_true]
      refine ⟨decide_eq_true htype, ?_⟩
      rcases hprom with ⟨hw, hr⟩ | ⟨hw, hr⟩
      · exact Or.inl ⟨decide_eq_true hw, decide_eq_true hr⟩
      · exact Or.inr ⟨decide_eq_true hw, decide_eq_true hr⟩
    rw [hb, if_pos rfl]
  · intro g2 hg2
    exact (dropPiece_success_fields hg2).2.1

/-- C10: neither transition recomputes `checkedKingPosition` — `makeMove`
and successful `dropPiece` both carry the field over from the input state
unchanged. -/
theorem checkedKingPosition_never_updated (g : GameState) (f p q : Position)
    (t : PieceType)
    (_hf : isValidPosition f.row f.col = true)
    (_hp : isValidPosition p.row p.col = true) :
    (makeMove g f p).checkedKingPosition = g.checkedKingPosition ∧
    (∀ g2, dropPiece g t q = some g2 →
      g2.checkedKingPosition = g.checkedKingPosition) := by
  constructor
  · unfold makeMove
    dsimp only
  · intro g2 hg2
    exact (dropPiece_success_fields hg2).2.2.2.2.2.1

/-! ## Sliding-piece blocking -/

/-- A point at positive distance along a unit direction determines both the
direction and the distance. -/
theorem unit_direction_unique {n m : Nat} {dr dc er ec : Int}
    (h1 : dr = -1 ∨ dr = 0 ∨ dr = 1) (h2 : dc = -1 ∨ dc = 0 ∨ dc = 1)
    (h0 : ¬(dr = 0 ∧ dc = 0))
    (h1' : er = -1 ∨ er = 0 ∨ er = 1) (h2' : ec = -1 ∨ ec = 0 ∨ ec = 1)
    (h0' : ¬(er = 0 ∧ ec = 0))
    (hn : 0 < n) (hm : 0 < m)
    (hr : (n : Int) * dr = (m : Int) * er) (hc : (n : Int) * dc = (m : Int) * ec) :
    n = m ∧ dr = er ∧ dc = ec := by
  rcases h1 with rfl | rfl | rfl <;> rcases h2 with rfl | rfl | rfl <;>
    rcases h1' with rfl | rfl | rfl <;> rcases h2' with rfl | rfl | rfl <;>
      refine ⟨by omega, by omega, by omega⟩

/-- C8: sliding-piece blocking — no legal destination of a ROOK or BISHOP
lies strictly beyond the first occupied square along its line of movement:
every cell strictly between the piece and any of its legal destinations is
empty. -/
theorem slider_blocking (g : GameState) (f : Position) (pc : Piece)
    (hp : boardGet g.board f = some pc)
    (ht : pc.type = PieceType.ROOK ∨ pc.type = PieceType.BISHOP)
    (d q : Position) (hd : d ∈ isLegalMove g f none true)
    (hq : strictlyBetween f d q) :
    boardGet g.board q = none := by
  obtain ⟨piece, hbg, _, hpm, _⟩ := mem_isLegalMove_all hd
  have hpc : pc = piece := by
    rw [hp] at hbg
    injection hbg
  subst hpc
  obtain ⟨dr, dc, h1, h2, h0, n, hn1, hrow, hcol, hbet⟩ := slider_moves_spec hp ht hpm
  obtain ⟨er, ec, m, k, h1', h2', h0', hk1, hkm, hdrow, hdcol, hqrow, hqcol⟩ := hq
  have hr : (n : Int) * dr = (m : Int) * er := by
    have h := hrow.symm.trans hdrow
    exact add_left_cancel h
  have hc : (n : Int) * dc = (m : Int) * ec := by
    have h := hcol.symm.trans hdcol
    exact add_left_cancel h
  obtain ⟨hnm, he1, he2⟩ :=
    unit_direction_unique h1 h2 h0 h1' h2' h0' (by omega) (by omega) hr hc
  subst he1
  subst he2
  have hqeq : q = ⟨f.row + (k : Int) * dr, f.col + (k : Int) * dc⟩ :=
    Position.ext_eq (by rw [hqrow]) (by rw [hqcol])
  rw [hqeq]
  exact hbet k hk1 (by omega)

/-! ## Concrete states for witnesses and counterexamples -/

/-! ## Witnesses and counterexamples -/

/-- C1 counterexample: in `twoKingsState` (two WHITE kings, which the claim
as stated does not exclude), the king move (5,5) → (4,5) is in the
legal-destination set, yet the resulting state leaves WHITE in check: the
self-check filter guarded the moved king at (4,5), while `isKingInCheck`
finds the row-major-first WHITE king at (0,0), attacked by the rook. -/
theorem two_kings_self_check_cex :
    twoKingsState.currentPlayer = PlayerColor.WHITE ∧
    boardGet twoKingsState.board ⟨5, 5⟩
      = some ⟨PieceType.KING, PlayerColor.WHITE⟩ ∧
    (⟨4, 5⟩ : Position) ∈ isLegalMove twoKingsState ⟨5, 5⟩ none true ∧
    isKingInCheck (makeMove twoKingsState ⟨5, 5⟩ ⟨4, 5⟩)
      twoKingsState.currentPlayer = true :=
  ⟨rfl, by decide, by decide, by decide⟩

theorem legal_moves_never_self_check_witness :
    WFBoard initialGameState.board ∧
    atMostOneKing initialGameState.board initialGameState.currentPlayer ∧
    (⟨2, 0⟩ : Position) ∈ isLegalMove initialGameState ⟨1, 0⟩ none true ∧
    isKingInCheck (makeMove initialGameState ⟨1, 0⟩ ⟨2, 0⟩)
      initialGameState.currentPlayer = false :=
  ⟨by decide, by decide, by decide,
    legal_moves_never_self_check initialGameState ⟨1, 0⟩ ⟨2, 0⟩
      (by decide) (by decide) (by decide)⟩

theorem dropPiece_spec_witness :
    WFBoard dropWitnessState.board ∧
    isValidPosition (2 : Int) (2 : Int) = true ∧
    dropPiece dropWitnessState PieceType.PAWN ⟨2, 2⟩ ≠ none := by
  refine ⟨by decide, by decide, ?_⟩
  intro hnone
  have h := (dropPiece_spec dropWitnessState PieceType.PAWN ⟨2, 2⟩
    (by decide) (by decide)).1.mp hnone
  revert h
  decide

theorem turn_alternation_witness :
    (makeMove initialGameState ⟨1, 0⟩ ⟨2, 0⟩).currentPlayer = PlayerColor.BLACK := by
  have h := (turn_alternation initialGameState ⟨1, 0⟩ ⟨2, 0⟩ PieceType.PAWN
    (by decide)).1 ⟨PieceType.PAWN, PlayerColor.WHITE⟩ (by decide) (by decide)
  rw [h]
  rfl

theorem drops_not_filtered_witness :
    isKingInCheck checkedDropState PlayerColor.WHITE = true ∧
    (dropPiece checkedDropState PieceType.KNIGHT ⟨3, 3⟩).isSome = true := by
  refine ⟨by decide, ?_⟩
  obtain ⟨g2, hg2⟩ := drops_not_filtered_for_check checkedDropState
    PieceType.KNIGHT ⟨3, 3⟩ (by decide) (by decide) (by decide) (by decide)
  rw [hg2]
  rfl

theorem checkedKingPosition_never_updated_witness :
    (makeMove initialGameState ⟨1, 0⟩ ⟨2, 0⟩).checkedKingPosition = none := by
  have h := (checkedKingPosition_never_updated initialGameState ⟨1, 0⟩ ⟨2, 0⟩
    ⟨2, 2⟩ PieceType.PAWN (by decide) (by decide)).1
  rw [h]
  rfl

theorem slider_blocking_witness :
    boardGet initialGameState.board ⟨0, 1⟩
      = some ⟨PieceType.ROOK, PlayerColor.WHITE⟩ ∧
    (⟨3, 1⟩ : Position) ∈ isLegalMove initialGameState ⟨0, 1⟩ none true ∧
    boardGet initialGameState.board ⟨2, 1⟩ = none :=
  ⟨by decide, by decide,
    slider_blocking initialGameState ⟨0, 1⟩ ⟨PieceType.ROOK, PlayerColor.WHITE⟩
      (by decide) (Or.inl rfl) ⟨3, 1⟩ ⟨2, 1⟩ (by decide)
      ⟨1, 0, 3, 2, by decide, by decide, by decide, by decide, by decide,
        by decide, by decide, by decide, by decide⟩⟩

/-! ## JS exception model for off-board rows (C6) -/

/-- C6 counterexample: calling `isLegalMove` with the off-board position
(-1, 0) does not return an empty result — `board[-1]` is `undefined` and
indexing it throws a `TypeError`. -/
theorem no_throw_cex :
    isLegalMoveJS initialGameState ⟨-1, 0⟩ none true = Except.error () := rfl

/-- C6 (amended): for positions whose row is within 0–5 (columns
unrestricted) the operations never throw and return their pure results, and
game-rule violations produce an empty list / `null`; a row outside 0–5
instead raises a `TypeError` (see the counterexample). -/
theorem no_throw_in_range (g : GameState) (f dto : Position)
    (toP : Option Position) (all : Bool) (t : PieceType)
    (hwf : WFBoard g.board)
    (hf : 0 ≤ f.row ∧ f.row < 6) (hd : 0 ≤ dto.row ∧ dto.row < 6) :
    isLegalMoveJS g f toP all = Except.ok (isLegalMove g f toP all) ∧
    dropPieceJS g t dto = Except.ok (dropPiece g t dto) ∧
    (boardGet g.board f = none → isLegalMove g f toP all = []) ∧
    (∀ pc, boardGet g.board f = some pc → pc.color ≠ g.currentPlayer →
      isLegalMove g f toP all = []) ∧
    ((boardGet g.board dto).isSome = true → dropPiece g t dto = none) ∧
    ((handOf g g.currentPlayer).get t = 0 → dropPiece g t dto = none) ∧
    (t = PieceType.PAWN ∧
      ((g.currentPlayer = PlayerColor.WHITE ∧ dto.row = 5) ∨
       (g.currentPlayer = PlayerColor.BLACK ∧ dto.row = 0)) →
      dropPiece g t dto = none) := by
  obtain ⟨hlen, _⟩ := hwf
  have hrowf : 0 ≤ f.row ∧ f.row.toNat < g.board.length := by
    rw [hlen]
    omega
  have hrowd : 0 ≤ dto.row ∧ dto.row.toNat < g.board.length := by
    rw [hlen]
    omega
  refine ⟨?_, ?_, ?_, ?_, ?_, ?_, ?_⟩
  · unfold isLegalMoveJS jsGetRow
    rw [if_pos hrowf]
  · unfold dropPieceJS jsGetRow
    by_cases h1 : (handOf g g.currentPlayer).get t = 0
    · rw [if_pos h1, (dropPiece_eq_none_iff g t dto).mpr (Or.inl h1)]
    · rw [if_neg h1, if_pos hrowd]
  · intro hnone
    unfold isLegalMove
    rw [hnone]
  · intro pc hpc hcol
    unfold isLegalMove
    rw [hpc]
    try dsimp only
    rw [if_pos hcol]
  · intro hocc
    exact (dropPiece_eq_none_iff g t dto).mpr (Or.inr (Or.inl hocc))
  · intro hhand
    exact (dropPiece_eq_none_iff g t dto).mpr (Or.inl hhand)
  · intro hpawn
    exact (dropPiece_eq_none_iff g t dto).mpr (Or.inr (Or.inr hpawn))

theorem no_throw_in_range_witness :
    isLegalMoveJS initialGameState ⟨0, 5⟩ none true = Except.ok [] ∧
    dropPieceJS initialGameState PieceType.PAWN ⟨2, 2⟩ = Except.ok none := by
  have h := no_throw_in_range initialGameState ⟨0, 5⟩ ⟨2, 2⟩ none true
    PieceType.PAWN (by decide) (by decide) (by decide)
  constructor
  · rw [h.1, show isLegalMove initialGameState ⟨0, 5⟩ none true
      = ([] : List Position) from by decide]
  · rw [h.2.1, show dropPiece initialGameState PieceType.PAWN ⟨2, 2⟩
      = (none : Option GameState) from by decide]

/-! ## The move arbiter (C7) -/

/-- C7 counterexample: the player whose turn it is submits a rook move that
`isLegalMove` rejects (empty result), yet `handleGameMove` executes it via
`makeMove` and produces a state update — the arbiter never consults
`isLegalMove`. -/
theorem arbiter_no_validation_cex :
    isLegalMove initialGameState ⟨0, 1⟩ (some ⟨3, 3⟩) false = [] ∧
    handleGameMove (some arbiterRoom) illegalRookMsg
      = some (makeMove initialGameState ⟨0, 1⟩ ⟨3, 3⟩) := by
  constructor
  · decide
  · rfl

/-- C7 (amended): `handleGameMove` gatekeeps only turn ownership: when the
sender's colour is not `currentPlayer` the action is rejected with no state
update; when it matches, a "move" action is executed by `makeMove`
unconditionally (no `isLegalMove` validation), and a "drop" action is
subject only to `dropPiece`'s own preconditions. -/
theorem arbiter_gatekeeping (room : GameRoom) (msg : GameMoveMessage)
    (player : Player)
    (hfind : room.players.find? (fun pl => pl.id == msg.playerId) = some player) :
    (player.color ≠ room.gameState.currentPlayer →
      handleGameMove (some room) msg = none) ∧
    (room.isGameStarted = true → player.color = room.gameState.currentPlayer →
      ∀ f : Position, msg.move.kind = ActionKind.move → msg.move.src = some f →
        handleGameMove (some room) msg
          = some (makeMove room.gameState f msg.move.dst)) ∧
    (room.isGameStarted = true → player.color = room.gameState.currentPlayer →
      ∀ pt : PieceType, msg.move.kind = ActionKind.drop →
        msg.move.pieceType = some pt →
        handleGameMove (some room) msg
          = dropPiece room.gameState pt msg.move.dst) := by
  unfold handleGameMove
  try dsimp only
  refine ⟨?_, ?_, ?_⟩
  · intro hne
    by_cases hs : room.isGameStarted = false
    · rw [if_pos hs]
    · rw [if_neg hs, hfind]
      try dsimp only
      rw [if_pos (fun h => hne h.symm)]
  · intro hstart hcol f hkind hsrc
    rw [if_neg (by rw [hstart]; exact Bool.noConfusion)]
    rw [hfind]
    try dsimp only
    rw [if_neg (fun h => h hcol.symm)]
    rw [hkind, hsrc]
  · intro hstart hcol pt hkind hpt
    rw [if_neg (by rw [hstart]; exact Bool.noConfusion)]
    rw [hfind]
    try dsimp only
    rw [if_neg (fun h => h hcol.symm)]
    rw [hkind, hpt]

theorem arbiter_gatekeeping_witness :
    handleGameMove (some arbiterRoom) illegalRookMsg
      = some (makeMove initialGameState ⟨0, 1⟩ ⟨3, 3⟩) ∧
    handleGameMove (some arbiterRoom) outOfTurnMsg = none := by
  constructor
  · exact (arbiter_gatekeeping arbiterRoom illegalRookMsg ⟨1, .WHITE, false⟩
      (by decide)).2.1 rfl rfl ⟨0, 1⟩ rfl rfl
  · exact (arbiter_gatekeeping arbiterRoom outOfTurnMsg ⟨2, .BLACK, false⟩
      (by decide)).1 (by decide)

end PicoChess

